import Mathlib

/-!
Verification of the DEA (Data Envelopment Analysis) model in
`envelopment.py`, embedded shallowly with rationals for the
floating-point values and lists for the numpy arrays.

The class `DEA` is a record of its instance fields; the numpy dot
product on 1-D arrays becomes `dot`, column extraction `M[:, k]`
becomes `col`, and the external optimizer `fmin_slsqp` becomes an
abstract `Optimizer` parameter (it receives the objective function,
the inequality-constraint function and an initial point, and returns
a point).  The random initial guess `np.random.rand(d0) - 0.5` is a
parameter `x0s` mapping unit index to the initial point.
-/

/-- Dot product of two 1-D arrays, `np.dot` (truncating to the
shorter length, which never happens on shape-correct data). -/
def dot (a b : List ℚ) : ℚ := (List.zipWith (· * ·) a b).sum

/-- Column extraction `M[:, k]` for a matrix stored as a list of
rows. -/
def col (M : List (List ℚ)) (k : Nat) : List ℚ :=
  M.map (fun row => row.getD k 0)

/-- Instance state of a `DEA` object: the data supplied at
construction (`inputs`, `outputs`), the result arrays
(`input_w`, `output_w`, `lambdas`, `efficiency`) and the display
`names`. -/
structure DEA where
  inputs : List (List ℚ)
  outputs : List (List ℚ)
  input_w : List ℚ
  output_w : List ℚ
  lambdas : List ℚ
  efficiency : List ℚ
  names : List String
deriving Repr, DecidableEq

/-- Derived dimension `self.n = inputs.shape[0]`. -/
def DEA.n (d : DEA) : Nat := d.inputs.length

/-- Derived dimension `self.m = inputs.shape[1]`. -/
def DEA.m (d : DEA) : Nat := (d.inputs.headD []).length

/-- Derived dimension `self.r = outputs.shape[1]`. -/
def DEA.r (d : DEA) : Nat := (d.outputs.headD []).length

/-- Constructor `DEA.__init__`: stores the data and zero-initializes
the result arrays; the source performs no validation of the shapes. -/
def DEA.init (inputs outputs : List (List ℚ)) : DEA where
  inputs := inputs
  outputs := outputs
  output_w := List.replicate (outputs.headD []).length 0
  input_w := List.replicate (inputs.headD []).length 0
  lambdas := List.replicate inputs.length 0
  efficiency := List.replicate inputs.length 0
  names := []

/-- Constructor viewed with an explicit failure channel: the source
`__init__` contains no `raise` and no shape check, so it always
returns `.ok`. -/
def DEA.initE (inputs outputs : List (List ℚ)) : Except Unit DEA :=
  .ok (DEA.init inputs outputs)

/-- Method `DEA.__efficiency`: the whole-matrix ratio
`(np.dot(outputs, output_w) / np.dot(inputs, input_w))[unit]`
evaluated at the stored weight state. -/
def DEA.effValue (d : DEA) (unit : Nat) : ℚ :=
  let denominator := d.inputs.map (fun row => dot row d.input_w)
  let numerator := d.outputs.map (fun row => dot row d.output_w)
  (List.zipWith (· / ·) numerator denominator).getD unit 0

/-- Method `DEA.__target`: unrolls the flat weight vector `x` into
`in_w = x[:m]`, `out_w = x[m:(m+r)]`, `lambdas = x[(m+r):]` and
returns `np.dot(outputs[unit], out_w) / np.dot(inputs[unit], in_w)`. -/
def DEA.target (d : DEA) (x : List ℚ) (unit : Nat) : ℚ :=
  let in_w := x.take d.m
  let out_w := (x.drop d.m).take d.r
  let denominator := dot (d.inputs.getD unit []) in_w
  let numerator := dot (d.outputs.getD unit []) out_w
  numerator / denominator

/-- Method `DEA.__constraints`: the inequality-constraint vector,
built by appending, in order, one entry per input dimension
(recomputing the target value from this same `x`), one per output
dimension, and one per unit (the lambdas). -/
def DEA.constraints (d : DEA) (x : List ℚ) (unit : Nat) : List ℚ :=
  let lambdas := x.drop (d.m + d.r)
  ((List.range d.m).map (fun input =>
      d.target x unit * (d.inputs.getD unit []).getD input 0 -
        dot (col d.inputs input) lambdas))
    ++ ((List.range d.r).map (fun output =>
      dot (col d.outputs output) lambdas -
        (d.outputs.getD unit []).getD output 0))
    ++ ((List.range d.n).map (fun u => lambdas.getD u 0))

/-- Contract of `scipy.optimize.fmin_slsqp` as used here: it is given
the objective function, the inequality-constraint function and the
initial point, and returns a point. -/
def Optimizer : Type := (List ℚ → ℚ) → (List ℚ → List ℚ) → List ℚ → List ℚ

/-- Objective function that `__optimize` passes to `fmin_slsqp` for a
unit: `self.__target` itself (applied to `unit` via `args=(unit,)`);
the source does not negate it. -/
def DEA.passedObjective (d : DEA) (unit : Nat) : List ℚ → ℚ :=
  fun x => d.target x unit

/-- Constraint function that `__optimize` passes to `fmin_slsqp` for
a unit (`f_ieqcons=self.__constraints`, `args=(unit,)`). -/
def DEA.passedConstraints (d : DEA) (unit : Nat) : List ℚ → List ℚ :=
  fun x => d.constraints x unit

/-- Body of the per-unit loop in `DEA.__optimize`: call the
optimizer, unroll the returned point into the weight fields, and
store `self.__efficiency(unit)` in `efficiency[unit]`. -/
def DEA.solveUnit (d : DEA) (opt : Optimizer) (x0 : List ℚ) (unit : Nat) : DEA :=
  let xr := opt (d.passedObjective unit) (d.passedConstraints unit) x0
  let d' := { d with input_w := xr.take d.m,
                     output_w := (xr.drop d.m).take d.r,
                     lambdas := xr.drop (d.m + d.r) }
  { d' with efficiency := d'.efficiency.set unit (d'.effValue unit) }

/-- Method `DEA.__optimize`: the loop `for unit in self.unit_`, i.e.
over `range(self.n)` in increasing order. -/
def DEA.optimize (d : DEA) (opt : Optimizer) (x0s : Nat → List ℚ) : DEA :=
  (List.range d.n).foldl (fun s u => s.solveUnit opt (x0s u) u) d

/-- Method `DEA.name_units`: `assert(self.n == len(names))`, then
`self.names = names`; the assert fires before any assignment. -/
def DEA.name_units (d : DEA) (names : List String) : Except Unit DEA :=
  if d.n = names.length then .ok { d with names := names }
  else .error ()

/-- Method `DEA.fit`: runs `self.__optimize()`; the report it then
prints is I/O only and changes no state. -/
def DEA.fit (d : DEA) (opt : Optimizer) (x0s : Nat → List ℚ) : DEA :=
  d.optimize opt x0s

/-- State after the first `k` iterations of the loop in
`DEA.__optimize` (so `optimize` is `stateAt` at `d.n`). -/
def DEA.stateAt (d : DEA) (opt : Optimizer) (x0s : Nat → List ℚ) (k : Nat) : DEA :=
  (List.range k).foldl (fun s u => s.solveUnit opt (x0s u) u) d

/-! Generic lemmas about `dot`, columns and slicing. -/

theorem dot_cons (a b : ℚ) (as bs : List ℚ) :
    dot (a :: as) (b :: bs) = a * b + dot as bs := by
  simp [dot]

theorem dot_replicate (l : List ℚ) (c : ℚ) :
    dot l (List.replicate l.length c) = c * l.sum := by
  induction l with
  | nil => simp [dot]
  | cons a as ih =>
      rw [List.length_cons, List.replicate_succ, dot_cons, ih, List.sum_cons]
      ring

theorem dot_map_range (l : List ℚ) (f : Nat → ℚ) :
    dot l ((List.range l.length).map f) =
      ∑ i in Finset.range l.length, l.getD i 0 * f i := by
  induction l generalizing f with
  | nil => simp [dot]
  | cons a as ih =>
      rw [List.length_cons, List.range_succ_eq_map, List.map_cons, List.map_map, dot_cons,
        ih, Finset.sum_range_succ']
      simp [Function.comp]
      ring

theorem dot_range_indicator (l : List ℚ) (u : Nat) (h : u < l.length) :
    dot l ((List.range l.length).map (fun v => if v = u then (1 : ℚ) else 0)) =
      l.getD u 0 := by
  rw [dot_map_range]
  have he : ∀ i, l.getD i 0 * (if i = u then (1 : ℚ) else 0) =
      if i = u then l.getD i 0 else 0 := by
    intro i; by_cases hi : i = u <;> simp [hi]
  simp only [he]
  rw [Finset.sum_ite_eq' (Finset.range l.length) u (fun i => l.getD i 0)]
  simp [h]

theorem unroll_take (a b c : List ℚ) : (a ++ b ++ c).take a.length = a := by
  rw [List.append_assoc, List.take_left]

theorem unroll_mid (a b c : List ℚ) :
    ((a ++ b ++ c).drop a.length).take b.length = b := by
  rw [List.append_assoc, List.drop_left, List.take_left]

theorem unroll_last (a b c : List ℚ) :
    (a ++ b ++ c).drop (a.length + b.length) = c := by
  rw [← List.length_append, List.drop_left]

theorem reconstruct (x : List ℚ) (m r : Nat) :
    x.take m ++ ((x.drop m).take r ++ x.drop (m + r)) = x := by
  rw [← List.drop_drop, List.take_append_drop, List.take_append_drop]

theorem range_map_getD (n v : Nat) (f : Nat → ℚ) (h : v < n) :
    ((List.range n).map f).getD v 0 = f v := by
  rw [List.getD_eq_getElem?_getD]
  simp [List.getElem?_map, List.getElem?_range h]

theorem col_length (M : List (List ℚ)) (k : Nat) : (col M k).length = M.length := by
  simp [col]

theorem col_getD (M : List (List ℚ)) (k u : Nat) (h : u < M.length) :
    (col M k).getD u 0 = (M.getD u []).getD k 0 := by
  rw [col, List.getD_eq_getElem?_getD]
  simp [List.getElem?_map, List.getElem?_eq_getElem h, List.getD_eq_getElem M [] h]

/-! Lemmas about the per-unit solve and the optimization loop. -/

theorem solveUnit_input_w (d : DEA) (opt : Optimizer) (x0 : List ℚ) (u : Nat) :
    (d.solveUnit opt x0 u).input_w =
      (opt (d.passedObjective u) (d.passedConstraints u) x0).take d.m := rfl

theorem solveUnit_output_w (d : DEA) (opt : Optimizer) (x0 : List ℚ) (u : Nat) :
    (d.solveUnit opt x0 u).output_w =
      ((opt (d.passedObjective u) (d.passedConstraints u) x0).drop d.m).take d.r := rfl

theorem solveUnit_lambdas (d : DEA) (opt : Optimizer) (x0 : List ℚ) (u : Nat) :
    (d.solveUnit opt x0 u).lambdas =
      (opt (d.passedObjective u) (d.passedConstraints u) x0).drop (d.m + d.r) := rfl

theorem solveUnit_inputs (d : DEA) (opt : Optimizer) (x0 : List ℚ) (u : Nat) :
    (d.solveUnit opt x0 u).inputs = d.inputs := rfl

theorem solveUnit_outputs (d : DEA) (opt : Optimizer) (x0 : List ℚ) (u : Nat) :
    (d.solveUnit opt x0 u).outputs = d.outputs := rfl

theorem solveUnit_names (d : DEA) (opt : Optimizer) (x0 : List ℚ) (u : Nat) :
    (d.solveUnit opt x0 u).names = d.names := rfl

theorem solveUnit_eff_ne (d : DEA) (opt : Optimizer) (x0 : List ℚ) (u v : Nat)
    (h : v ≠ u) :
    (d.solveUnit opt x0 u).efficiency[v]? = d.efficiency[v]? := by
  simp only [DEA.solveUnit]
  exact List.getElem?_set_ne (Ne.symm h)

theorem effValue_unrolled (d : DEA) (x : List ℚ) (u : Nat)
    (h1 : u < d.inputs.length) (h2 : u < d.outputs.length) :
    ({ d with input_w := x.take d.m,
              output_w := (x.drop d.m).take d.r,
              lambdas := x.drop (d.m + d.r) } : DEA).effValue u = d.target x u := by
  rw [DEA.effValue, DEA.target]
  rw [List.getD_eq_getElem?_getD]
  simp [List.getElem?_zipWith, List.getElem?_map, List.getElem?_eq_getElem, h1, h2,
    List.getD_eq_getElem]

theorem solveUnit_eff_self (d : DEA) (opt : Optimizer) (x0 : List ℚ) (u : Nat)
    (h1 : u < d.inputs.length) (h2 : u < d.outputs.length)
    (h3 : u < d.efficiency.length) :
    (d.solveUnit opt x0 u).efficiency.getD u 0 =
      d.target (opt (d.passedObjective u) (d.passedConstraints u) x0) u := by
  rw [DEA.solveUnit]
  simp only []
  rw [List.getD_eq_getElem?_getD, List.getElem?_set_eq_of_lt _ (by simpa using h3)]
  simpa using effValue_unrolled d (opt (d.passedObjective u) (d.passedConstraints u) x0) u h1 h2

theorem foldl_solve_data (opt : Optimizer) (x0s : Nat → List ℚ) (L : List Nat) (d : DEA) :
    ((L.foldl (fun s u => s.solveUnit opt (x0s u) u) d).inputs = d.inputs
      ∧ (L.foldl (fun s u => s.solveUnit opt (x0s u) u) d).outputs = d.outputs)
      ∧ (L.foldl (fun s u => s.solveUnit opt (x0s u) u) d).names = d.names := by
  induction L generalizing d with
  | nil => exact ⟨⟨rfl, rfl⟩, rfl⟩
  | cons a L ih => exact ih (d.solveUnit opt (x0s a) a)

theorem stateAt_zero (d : DEA) (opt : Optimizer) (x0s : Nat → List ℚ) :
    d.stateAt opt x0s 0 = d := rfl

theorem stateAt_succ (d : DEA) (opt : Optimizer) (x0s : Nat → List ℚ) (k : Nat) :
    d.stateAt opt x0s (k + 1) = (d.stateAt opt x0s k).solveUnit opt (x0s k) k := by
  rw [DEA.stateAt, DEA.stateAt, List.range_succ, List.foldl_append]
  rfl

theorem optimize_eq_stateAt (d : DEA) (opt : Optimizer) (x0s : Nat → List ℚ) :
    d.optimize opt x0s = d.stateAt opt x0s d.n := rfl

theorem stateAt_eff_before (d : DEA) (opt : Optimizer) (x0s : Nat → List ℚ) (u : Nat) :
    ∀ k, k ≤ u → (d.stateAt opt x0s k).efficiency[u]? = d.efficiency[u]? := by
  intro k
  induction k with
  | zero => intro _; rfl
  | succ k ih =>
      intro hk
      rw [stateAt_succ, solveUnit_eff_ne _ _ _ _ _ (by omega : u ≠ k)]
      exact ih (by omega)

theorem stateAt_eff_after (d : DEA) (opt : Optimizer) (x0s : Nat → List ℚ) (u : Nat) :
    ∀ j, (d.stateAt opt x0s (u + 1 + j)).efficiency[u]? =
      (d.stateAt opt x0s (u + 1)).efficiency[u]? := by
  intro j
  induction j with
  | zero => rfl
  | succ j ih =>
      rw [show u + 1 + (j + 1) = u + 1 + j + 1 from rfl, stateAt_succ,
        solveUnit_eff_ne _ _ _ _ _ (by omega : u ≠ u + 1 + j)]
      exact ih

theorem solveUnit_names_comm (d : DEA) (nm : List String) (opt : Optimizer)
    (x0 : List ℚ) (u : Nat) :
    ({ d with names := nm } : DEA).solveUnit opt x0 u =
      { d.solveUnit opt x0 u with names := nm } := rfl

theorem foldl_names_comm (opt : Optimizer) (x0s : Nat → List ℚ) (L : List Nat)
    (d : DEA) (nm : List String) :
    L.foldl (fun s u => s.solveUnit opt (x0s u) u) { d with names := nm } =
      { L.foldl (fun s u => s.solveUnit opt (x0s u) u) d with names := nm } := by
  induction L generalizing d with
  | nil => rfl
  | cons a L ih =>
      simp only [List.foldl_cons, solveUnit_names_comm]
      exact ih _

theorem optimize_names_comm (d : DEA) (nm : List String) (opt : Optimizer)
    (x0s : Nat → List ℚ) :
    ({ d with names := nm } : DEA).optimize opt x0s =
      { d.optimize opt x0s with names := nm } := by
  rw [DEA.optimize, DEA.optimize]
  exact foldl_names_comm opt x0s (List.range d.n) d nm

/-! Index-access lemmas for a three-block append. -/

theorem getD_append3_left (A B C : List ℚ) (k : Nat) (hk : k < A.length) :
    (A ++ B ++ C).getD k 0 = A.getD k 0 := by
  rw [List.append_assoc, List.getD_append _ _ _ _ hk]

theorem getD_append3_mid (A B C : List ℚ) (i j : Nat) (hi : i = A.length)
    (hj : j < B.length) :
    (A ++ B ++ C).getD (i + j) 0 = B.getD j 0 := by
  subst hi
  rw [List.append_assoc, List.getD_append_right _ _ _ _ (Nat.le_add_right _ _),
    Nat.add_sub_cancel_left, List.getD_append _ _ _ _ hj]

theorem getD_append3_last (A B C : List ℚ) (i v : Nat) (hi : i = A.length + B.length) :
    (A ++ B ++ C).getD (i + v) 0 = C.getD v 0 := by
  subst hi
  rw [List.getD_append_right _ _ _ _ (by simp [List.length_append])]
  congr 1
  simp [List.length_append]

/-! Theorems for the individual claims. -/

/-- C1 counterexample: `__optimize` passes `__target` itself to the
minimizer `fmin_slsqp`, not its negation; at the concrete model with
one unit, inputs `[[1]]`, outputs `[[1]]`, and weight vector
`[1, 2, 1]`, the passed objective evaluates to `2` while the negated
objective is `-2`. -/
theorem C1_counterexample :
    (DEA.init [[1]] [[1]]).passedObjective 0 [1, 2, 1] ≠
      -((DEA.init [[1]] [[1]]).target [1, 2, 1] 0) := by
  norm_num [DEA.passedObjective, DEA.target, DEA.init, DEA.m, DEA.r, dot]

/-- C1 amended: `solveUnit` passes the objective itself (not its
negation) to the external minimizer, so for any optimizer that does
not increase its given objective relative to the initial point, the
weight vector retained by `solveUnit` has an objective value no
larger than at the initial point: the returned point extremizes the
ratio downward, not upward. -/
theorem C1_amended_minimizes (d : DEA) (opt : Optimizer) (x0 : List ℚ) (u : Nat)
    (hopt : ∀ (f : List ℚ → ℚ) (g : List ℚ → List ℚ) (z : List ℚ),
      f (opt f g z) ≤ f z) :
    d.target ((d.solveUnit opt x0 u).input_w ++ (d.solveUnit opt x0 u).output_w ++
        (d.solveUnit opt x0 u).lambdas) u ≤ d.target x0 u := by
  rw [solveUnit_input_w, solveUnit_output_w, solveUnit_lambdas, List.append_assoc,
    reconstruct]
  exact hopt (d.passedObjective u) (d.passedConstraints u) x0

/-- C1 witness: the amended theorem applied to the identity optimizer
on the one-unit model. -/
theorem C1_witness :
    (DEA.init [[1]] [[1]]).target
        (((DEA.init [[1]] [[1]]).solveUnit (fun _ _ z => z) [1, 2, 1] 0).input_w ++
          ((DEA.init [[1]] [[1]]).solveUnit (fun _ _ z => z) [1, 2, 1] 0).output_w ++
          ((DEA.init [[1]] [[1]]).solveUnit (fun _ _ z => z) [1, 2, 1] 0).lambdas) 0 ≤
      (DEA.init [[1]] [[1]]).target [1, 2, 1] 0 :=
  C1_amended_minimizes (DEA.init [[1]] [[1]]) (fun _ _ z => z) [1, 2, 1] 0
    (fun f _ z => le_refl (f z))

/-- C2: `__target` unrolls the flat weight vector into the first `m`
entries (input weights), the next `r` (output weights) and the rest
(lambdas), and returns `dot(outputs[unit], out_w) / dot(inputs[unit],
in_w)`. -/
theorem C2_target_unrolls (d : DEA) (a b c : List ℚ) (u : Nat)
    (ha : a.length = d.m) (hb : b.length = d.r) :
    d.target (a ++ b ++ c) u =
      dot (d.outputs.getD u []) b / dot (d.inputs.getD u []) a := by
  simp only [DEA.target]
  rw [← ha, ← hb, unroll_take, unroll_mid]

/-- C2 witness: the unrolling theorem at a concrete one-unit model. -/
theorem C2_witness :
    (DEA.init [[1]] [[1]]).target ([1] ++ [2] ++ [3]) 0 =
      dot ((DEA.init [[1]] [[1]]).outputs.getD 0 []) [2] /
        dot ((DEA.init [[1]] [[1]]).inputs.getD 0 []) [1] :=
  C2_target_unrolls (DEA.init [[1]] [[1]]) [1] [2] [3] 0
    (by simp [DEA.m, DEA.init]) (by simp [DEA.r, DEA.init])

/-- C3: `__constraints` returns exactly `m + r + n` values; entry `k`
(for `k < m`) is `theta * inputs[u, k] - dot(inputs[:, k], lambdas)`
with `theta` recomputed from this same `x`; entry `m + j` (for
`j < r`) is `dot(outputs[:, j], lambdas) - outputs[u, j]`; and entry
`m + r + v` (for `v < n`) is `lambdas[v]`. -/
theorem C3_constraints_layout (d : DEA) (x : List ℚ) (u : Nat) :
    ((d.constraints x u).length = d.m + d.r + d.n
      ∧ (∀ k, k < d.m → (d.constraints x u).getD k 0 =
          d.target x u * (d.inputs.getD u []).getD k 0 -
            dot (col d.inputs k) (x.drop (d.m + d.r))))
      ∧ (∀ j, j < d.r → (d.constraints x u).getD (d.m + j) 0 =
          dot (col d.outputs j) (x.drop (d.m + d.r)) -
            (d.outputs.getD u []).getD j 0)
      ∧ (∀ v, v < d.n → (d.constraints x u).getD (d.m + d.r + v) 0 =
          (x.drop (d.m + d.r)).getD v 0) := by
  refine ⟨⟨?_, ?_⟩, ?_, ?_⟩
  · simp [DEA.constraints]
    omega
  · intro k hk
    simp only [DEA.constraints]
    rw [getD_append3_left _ _ _ k (by simpa using hk), range_map_getD _ _ _ hk]
  · intro j hj
    simp only [DEA.constraints]
    rw [getD_append3_mid _ _ _ d.m j (by simp) (by simpa using hj),
      range_map_getD _ _ _ hj]
  · intro v hv
    simp only [DEA.constraints]
    rw [getD_append3_last _ _ _ (d.m + d.r) v (by simp),
      range_map_getD _ _ _ hv]

/-- C3 witness: the layout theorem read at the first input constraint
of a concrete one-unit model. -/
theorem C3_witness :
    ((DEA.init [[1]] [[1]]).constraints [1, 2, 3] 0).getD 0 0 =
      (DEA.init [[1]] [[1]]).target [1, 2, 3] 0 *
          (((DEA.init [[1]] [[1]]).inputs.getD 0 []).getD 0 0) -
        dot (col (DEA.init [[1]] [[1]]).inputs 0)
          ([(1 : ℚ), 2, 3].drop ((DEA.init [[1]] [[1]]).m + (DEA.init [[1]] [[1]]).r)) :=
  (C3_constraints_layout (DEA.init [[1]] [[1]]) [1, 2, 3] 0).1.2 0
    (by norm_num [DEA.m, DEA.init])

/-- C5 counterexample: constructing with inputs of shape 5 by 2 and
outputs of shape 4 by 1 does not fail; the constructor performs no
validation, derives `n = 5` from the input matrix alone, `m = 2`,
`r = 1`, and returns a usable model. -/
theorem C5_counterexample :
    DEA.initE [[20, 300], [30, 200], [40, 100], [20, 200], [10, 400]]
        [[1000], [1000], [1000], [1000]] =
      .ok (DEA.init [[20, 300], [30, 200], [40, 100], [20, 200], [10, 400]]
        [[1000], [1000], [1000], [1000]])
    ∧ (DEA.init [[20, 300], [30, 200], [40, 100], [20, 200], [10, 400]]
        [[1000], [1000], [1000], [1000]]).n = 5
    ∧ (DEA.init [[20, 300], [30, 200], [40, 100], [20, 200], [10, 400]]
        [[1000], [1000], [1000], [1000]]).m = 2
    ∧ (DEA.init [[20, 300], [30, 200], [40, 100], [20, 200], [10, 400]]
        [[1000], [1000], [1000], [1000]]).r = 1 := by
  refine ⟨rfl, ?_, ?_, ?_⟩ <;> simp [DEA.n, DEA.m, DEA.r, DEA.init]

/-- C5 amended: `__init__` performs no validation and never raises:
it stores the matrices as given and derives `n` from the input
matrix's row count and `m`, `r` from the column counts, even when the
row counts differ or a matrix has zero columns. -/
theorem C5_amended_no_validation (I O : List (List ℚ)) :
    DEA.initE I O = .ok (DEA.init I O)
    ∧ (DEA.init I O).inputs = I ∧ (DEA.init I O).outputs = O
    ∧ (DEA.init I O).n = I.length
    ∧ (DEA.init I O).m = (I.headD []).length
    ∧ (DEA.init I O).r = (O.headD []).length
    ∧ (DEA.init I O).efficiency = List.replicate I.length 0
    ∧ (DEA.init I O).names = [] :=
  ⟨rfl, rfl, rfl, rfl, rfl, rfl, rfl, rfl⟩

/-- C6: `name_units` fails (the assert fires) exactly when the label
count differs from `n`; on success the only field changed is `names`,
and on failure no state is produced, so previously computed
efficiency values and previously stored names are untouched. -/
theorem C6_name_units_guard (d : DEA) (names : List String) :
    (names.length ≠ d.n → d.name_units names = .error ())
    ∧ (names.length = d.n → d.name_units names = .ok { d with names := names })
    ∧ (∀ d', d.name_units names = .ok d' →
        d'.efficiency = d.efficiency ∧ d'.inputs = d.inputs ∧ d'.outputs = d.outputs
          ∧ d'.input_w = d.input_w ∧ d'.output_w = d.output_w
          ∧ d'.lambdas = d.lambdas ∧ d'.names = names) := by
  refine ⟨?_, ?_, ?_⟩
  · intro h
    rw [DEA.name_units, if_neg (fun hh => h hh.symm)]
  · intro h
    rw [DEA.name_units, if_pos h.symm]
  · intro d' h
    rw [DEA.name_units] at h
    by_cases hc : d.n = names.length
    · rw [if_pos hc] at h
      injection h with h
      subst h
      exact ⟨rfl, rfl, rfl, rfl, rfl, rfl, rfl⟩
    · rw [if_neg hc] at h
      exact Except.noConfusion h

/-- C6 witness: attaching 4 names to the 5-unit example dataset
fails. -/
theorem C6_witness :
    (DEA.init [[20, 300], [30, 200], [40, 100], [20, 200], [10, 400]]
        [[1000], [1000], [1000], [1000], [1000]]).name_units
        ["Bratislava", "Zilina", "Kosice", "Presov"] = .error () :=
  (C6_name_units_guard _ _).1 (by simp [DEA.n, DEA.init])

/-- C7 counterexample: `solveUnit` does not leave all other model
state unchanged: it overwrites the shared weight fields; on the
one-unit model, solving unit 0 with an optimizer returning
`[5, 5, 5]` changes `lambdas` from `[0]` to `[5]`. -/
theorem C7_counterexample :
    ((DEA.init [[1]] [[1]]).solveUnit (fun _ _ _ => [5, 5, 5]) [0, 0, 0] 0).lambdas ≠
      (DEA.init [[1]] [[1]]).lambdas := by
  rw [solveUnit_lambdas]
  norm_num [DEA.init, DEA.m, DEA.r]

/-- C7 amended: each per-unit solve is read-only with respect to the
dataset (`inputs`, `outputs` and `names` are unchanged by `solveUnit`
and by `fit`), and among the efficiency entries `solveUnit` writes
only its own unit's entry; but it also overwrites the shared weight
state (`input_w`, `output_w`, `lambdas`). -/
theorem C7_amended_frame (d : DEA) (opt : Optimizer) (x0 : List ℚ)
    (x0s : Nat → List ℚ) (u v : Nat) (h : v ≠ u) :
    (d.solveUnit opt x0 u).inputs = d.inputs
    ∧ (d.solveUnit opt x0 u).outputs = d.outputs
    ∧ (d.solveUnit opt x0 u).names = d.names
    ∧ (d.solveUnit opt x0 u).efficiency[v]? = d.efficiency[v]?
    ∧ (d.fit opt x0s).inputs = d.inputs
    ∧ (d.fit opt x0s).outputs = d.outputs
    ∧ (d.fit opt x0s).names = d.names :=
  ⟨rfl, rfl, rfl, solveUnit_eff_ne d opt x0 u v h,
    (foldl_solve_data opt x0s (List.range d.n) d).1.1,
    (foldl_solve_data opt x0s (List.range d.n) d).1.2,
    (foldl_solve_data opt x0s (List.range d.n) d).2⟩

/-- C7 witness: the frame theorem at a concrete model, showing the
entry of a different unit is untouched. -/
theorem C7_witness :
    ((DEA.init [[1]] [[1]]).solveUnit (fun _ _ _ => [5, 5, 5]) [0, 0, 0] 0).efficiency[1]? =
      (DEA.init [[1]] [[1]]).efficiency[1]? :=
  (C7_amended_frame (DEA.init [[1]] [[1]]) (fun _ _ _ => [5, 5, 5]) [0, 0, 0]
    (fun _ => [0, 0, 0]) 0 1 (by decide)).2.2.2.1

/-- C8: the score `solveUnit` stores — `__efficiency` evaluated at
the stored weight state obtained by unrolling the optimizer result
`x` — equals `__target x unit`, whenever the row-`unit` denominator
is nonzero (in this embedding the two agree as rationals). -/
theorem C8_stored_score_eq_objective (d : DEA) (opt : Optimizer) (x0 : List ℚ) (u : Nat)
    (h1 : u < d.inputs.length) (h2 : u < d.outputs.length)
    (h3 : u < d.efficiency.length)
    (_hden : dot (d.inputs.getD u [])
        ((opt (d.passedObjective u) (d.passedConstraints u) x0).take d.m) ≠ 0) :
    (d.solveUnit opt x0 u).efficiency.getD u 0 =
      d.target (opt (d.passedObjective u) (d.passedConstraints u) x0) u :=
  solveUnit_eff_self d opt x0 u h1 h2 h3

/-- C8 witness: the refinement theorem at a concrete one-unit model
with the identity optimizer. -/
theorem C8_witness :
    ((DEA.init [[1]] [[1]]).solveUnit (fun _ _ z => z) [1, 2, 1] 0).efficiency.getD 0 0 =
      (DEA.init [[1]] [[1]]).target [1, 2, 1] 0 :=
  C8_stored_score_eq_objective (DEA.init [[1]] [[1]]) (fun _ _ z => z) [1, 2, 1] 0
    (by norm_num [DEA.init]) (by norm_num [DEA.init]) (by norm_num [DEA.init])
    (by norm_num [DEA.init, DEA.m, dot])

/-- C9: labels are pure presentation: two models differing only in
`names` produce, under `fit` with the same optimizer and the same
initial points, the same efficiency array and the same retained
weight state (the whole resulting states agree except for `names`);
and `name_units` changes nothing but the stored names. -/
theorem C9_labels_no_effect (d : DEA) (opt : Optimizer) (x0s : Nat → List ℚ)
    (nm : List String) :
    ({ d with names := nm } : DEA).fit opt x0s = { d.fit opt x0s with names := nm }
    ∧ (∀ names d', d.name_units names = .ok d' →
        d'.efficiency = d.efficiency ∧ d'.input_w = d.input_w
          ∧ d'.output_w = d.output_w ∧ d'.lambdas = d.lambdas
          ∧ d'.inputs = d.inputs ∧ d'.outputs = d.outputs) := by
  constructor
  · exact optimize_names_comm d nm opt x0s
  · intro names d' h
    rw [DEA.name_units] at h
    by_cases hc : d.n = names.length
    · rw [if_pos hc] at h
      injection h with h
      subst h
      exact ⟨rfl, rfl, rfl, rfl, rfl, rfl⟩
    · rw [if_neg hc] at h
      exact Except.noConfusion h

/-- C9 witness: attaching a correct label list to the one-unit model
succeeds and leaves the efficiency array unchanged. -/
theorem C9_witness :
    (DEA.init [[1]] [[1]]).name_units ["A"] =
        .ok { DEA.init [[1]] [[1]] with names := ["A"] }
    ∧ ({ DEA.init [[1]] [[1]] with names := ["A"] } : DEA).efficiency =
        (DEA.init [[1]] [[1]]).efficiency := by
  have hok : (DEA.init [[1]] [[1]]).name_units ["A"] =
      .ok { DEA.init [[1]] [[1]] with names := ["A"] } := by
    simp [DEA.name_units, DEA.n, DEA.init]
  exact ⟨hok, ((C9_labels_no_effect (DEA.init [[1]] [[1]]) (fun _ _ z => z)
    (fun _ => []) []).2 ["A"] _ hok).1⟩

/-- C10: the efficiency array is zero-initialized at construction;
`fit` runs the per-unit solves sequentially in increasing unit order
(`optimize` is the fold of `solveUnit` over `0..n-1`), the entry of a
unit is untouched by the solves of earlier units, and its final value
is the one written by that unit's own solve (later solves leave it
unchanged) — so each entry is written exactly once, by its own
unit. -/
theorem C10_fit_sequential_once (I O : List (List ℚ)) (d : DEA) (opt : Optimizer)
    (x0s : Nat → List ℚ) (u : Nat) (hu : u < d.n) :
    (DEA.init I O).efficiency = List.replicate I.length 0
    ∧ d.optimize opt x0s = d.stateAt opt x0s d.n
    ∧ (∀ k, d.stateAt opt x0s (k + 1) = (d.stateAt opt x0s k).solveUnit opt (x0s k) k)
    ∧ (d.stateAt opt x0s u).efficiency[u]? = d.efficiency[u]?
    ∧ (d.optimize opt x0s).efficiency[u]? = (d.stateAt opt x0s (u + 1)).efficiency[u]? := by
  refine ⟨rfl, rfl, stateAt_succ d opt x0s, stateAt_eff_before d opt x0s u u le_rfl, ?_⟩
  rw [optimize_eq_stateAt, show d.n = u + 1 + (d.n - (u + 1)) from by omega]
  exact stateAt_eff_after d opt x0s u (d.n - (u + 1))

/-- C10 witness: the sequencing theorem at the one-unit model. -/
theorem C10_witness :
    ((DEA.init [[1]] [[1]]).optimize (fun _ _ z => z) (fun _ => [1, 2, 1])).efficiency[0]? =
      ((DEA.init [[1]] [[1]]).stateAt (fun _ _ z => z) (fun _ => [1, 2, 1]) 1).efficiency[0]? :=
  (C10_fit_sequential_once [[1]] [[1]] (DEA.init [[1]] [[1]]) (fun _ _ z => z)
    (fun _ => [1, 2, 1]) 0 (by norm_num [DEA.n, DEA.init])).2.2.2.2

/-- C4 counterexample: feasibility alone does not cap the objective
at 1: on the one-unit model with inputs `[[1]]`, outputs `[[1]]`, the
weight vector `[1, 2, 1]` satisfies every constraint, has a nonzero
denominator, and yet its objective value is `2 > 1`. -/
theorem C4_counterexample :
    (∀ c ∈ (DEA.init [[1]] [[1]]).constraints [1, 2, 1] 0, 0 ≤ c)
    ∧ dot ((DEA.init [[1]] [[1]]).inputs.getD 0 [])
        ([(1 : ℚ), 2, 1].take (DEA.init [[1]] [[1]]).m) ≠ 0
    ∧ ¬ (DEA.init [[1]] [[1]]).target [1, 2, 1] 0 ≤ 1 := by
  refine ⟨?_, ?_, ?_⟩
  · intro c hc
    have hl : (DEA.init [[1]] [[1]]).constraints [1, 2, 1] 0 = [1, 0, 1] := by
      norm_num [DEA.constraints, DEA.init, DEA.m, DEA.r, DEA.n, DEA.target, col, dot,
        List.range_succ]
    rw [hl] at hc
    simp at hc
    rcases hc with rfl | rfl | rfl <;> norm_num
  · norm_num [DEA.init, DEA.m, dot]
  · norm_num [DEA.target, DEA.init, DEA.m, DEA.r, dot]

/-- C4 amended: the bound holds at an optimum rather than at every
feasible point: for a unit whose data rows have the right lengths and
nonzero sums, any weight vector that minimizes the objective over the
feasible set (which is what the optimizer returns, since the code
minimizes `__target`) has objective value at most 1, because the
self-referencing point (lambda equal to the unit's own indicator,
with constant weights) is feasible with objective exactly 1. -/
theorem C4_amended_optimum_le_one (d : DEA) (u : Nat) (x : List ℚ)
    (hu : u < d.n) (hno : d.outputs.length = d.n)
    (hrin : (d.inputs.getD u []).length = d.m)
    (hrout : (d.outputs.getD u []).length = d.r)
    (hSin : (d.inputs.getD u []).sum ≠ 0)
    (hSout : (d.outputs.getD u []).sum ≠ 0)
    (hmin : ∀ y : List ℚ, (∀ c ∈ d.constraints y u, 0 ≤ c) →
      d.target x u ≤ d.target y u) :
    d.target x u ≤ 1 := by
  set w := List.replicate d.m ((d.outputs.getD u []).sum) ++
      List.replicate d.r ((d.inputs.getD u []).sum) ++
      (List.range d.n).map (fun v => if v = u then (1 : ℚ) else 0) with hw
  have hwin : w.take d.m = List.replicate d.m ((d.outputs.getD u []).sum) := by
    rw [hw]
    simp
  have hwout : (w.drop d.m).take d.r = List.replicate d.r ((d.inputs.getD u []).sum) := by
    rw [hw]
    simp
  have hwlam : w.drop (d.m + d.r) =
      (List.range d.n).map (fun v => if v = u then (1 : ℚ) else 0) := by
    rw [hw]
    have h := unroll_last (List.replicate d.m ((d.outputs.getD u []).sum))
      (List.replicate d.r ((d.inputs.getD u []).sum))
      ((List.range d.n).map (fun v => if v = u then (1 : ℚ) else 0))
    simpa using h
  have htw : d.target w u = 1 := by
    simp only [DEA.target]
    rw [hwin, hwout, ← hrin, ← hrout, dot_replicate, dot_replicate]
    rw [mul_comm ((d.inputs.getD u []).sum) ((d.outputs.getD u []).sum)]
    exact div_self (mul_ne_zero hSout hSin)
  have hfeas : ∀ c ∈ d.constraints w u, 0 ≤ c := by
    intro c hc
    simp only [DEA.constraints, List.mem_append, List.mem_map, List.mem_range] at hc
    rcases hc with (⟨k, hk, rfl⟩ | ⟨j, hj, rfl⟩) | ⟨v, hv, rfl⟩
    · rw [hwlam, htw, one_mul]
      have hcol : dot (col d.inputs k)
          ((List.range d.n).map (fun v => if v = u then (1 : ℚ) else 0)) =
          (d.inputs.getD u []).getD k 0 := by
        rw [show d.n = (col d.inputs k).length from (col_length d.inputs k).symm]
        rw [dot_range_indicator (col d.inputs k) u (by rw [col_length]; exact hu)]
        exact col_getD d.inputs k u hu
      rw [hcol, sub_self]
    · rw [hwlam]
      have hcol : dot (col d.outputs j)
          ((List.range d.n).map (fun v => if v = u then (1 : ℚ) else 0)) =
          (d.outputs.getD u []).getD j 0 := by
        rw [show d.n = (col d.outputs j).length from by rw [col_length, hno]]
        rw [dot_range_indicator (col d.outputs j) u (by rw [col_length, hno]; exact hu)]
        exact col_getD d.outputs j u (by rw [hno]; exact hu)
      rw [hcol, sub_self]
    · rw [hwlam, range_map_getD _ _ _ hv]
      by_cases hvu : v = u <;> simp [hvu]
  have hle := hmin w hfeas
  rw [htw] at hle
  exact hle

/-- C4 witness: the amended theorem applied to the one-unit model and
the weight vector `[1, 1, 1]`, which is a genuine minimizer of the
objective over the feasible set (every feasible point there has
objective at least 1). -/
theorem C4_witness : (DEA.init [[1]] [[1]]).target [1, 1, 1] 0 ≤ 1 := by
  refine C4_amended_optimum_le_one (DEA.init [[1]] [[1]]) 0 [1, 1, 1]
    (by norm_num [DEA.n, DEA.init]) (by norm_num [DEA.n, DEA.init])
    (by norm_num [DEA.m, DEA.init]) (by norm_num [DEA.r, DEA.init])
    (by norm_num [DEA.init]) (by norm_num [DEA.init]) ?_
  intro y hy
  have hx : (DEA.init [[1]] [[1]]).target [1, 1, 1] 0 = 1 := by
    norm_num [DEA.target, DEA.init, DEA.m, DEA.r, dot]
  rw [hx]
  have hl : (DEA.init [[1]] [[1]]).constraints y 0 =
      [(DEA.init [[1]] [[1]]).target y 0 - dot [1] (y.drop 2),
        dot [1] (y.drop 2) - 1, (y.drop 2).getD 0 0] := by
    norm_num [DEA.constraints, DEA.init, DEA.m, DEA.r, DEA.n, col, List.range_succ]
  rw [hl] at hy
  simp only [List.forall_mem_cons, List.forall_mem_nil] at hy
  obtain ⟨h1, h2, -⟩ := hy
  linarith
